import Mathlib

/-!
Shallow embedding of the forex-factory calendar scraper core (utils.py):
row normalization (reformat_data), merge-key derivation (create_key /
extract_event_id_from_detail), the incremental merge engine (merge_csv_data),
the canonical date/time sort, timezone conversion (convert_time_zone), and the
header derivation of save_csv.

Modeling conventions:
  - a DataFrame cell is Cell := Option String, where none models a pandas
    NaN (missing value); Python str() of NaN is the string "nan";
  - a dataset is a List Rec over the fixed EventRecord schema (every column
    present, as produced by reformat_data and the CSV round trip);
  - raw scraped rows are ordered association lists List (String × String),
    mirroring Python dicts;
  - the pytz timezone database (timezone lookup, localize, astimezone) is
    abstracted as a TzDB value whose conv function returns none on any
    exception and otherwise a valid wall-clock (hour, minute) pair;
  - module-global configuration (config.SCRAPER_TIMEZONE / TARGET_TIMEZONE,
    set at runtime by the scraper) is passed explicitly as ScraperConfig,
    with the empty string modeling a falsy/unset value;
  - the merge report that Python prints is modeled as the Option (Nat × Nat)
    component of the merge result; the early returns print no report, which
    is modeled by none.
-/

set_option maxRecDepth 8000

/-! ## Python string primitives -/

/-- Characters stripped by Python str.strip() and matched by the regex class
backslash-s (ASCII range, which covers all data this scraper handles). -/
def isPySpace (c : Char) : Bool :=
  c == ' ' || c == '\t' || c == '\n' || c == '\r' || c == '\x0b' || c == '\x0c'

def pyStripList (cs : List Char) : List Char :=
  ((cs.dropWhile isPySpace).reverse.dropWhile isPySpace).reverse

/-- Python str.strip(). -/
def pyStrip (s : String) : String := String.mk (pyStripList s.toList)

/-- Python str.lower() restricted to ASCII letters, which covers the sentinel
time values compared by convert_time_zone. -/
def pyLowerChar (c : Char) : Char :=
  if 65 ≤ c.toNat ∧ c.toNat ≤ 90 then Char.ofNat (c.toNat + 32) else c

def pyLower (s : String) : String := String.mk (s.toList.map pyLowerChar)

/-- Zero-padded two-digit rendering, as Python format specifiers 02d and the
strftime fields H and M produce. -/
def two (n : Nat) : String := if n < 10 then "0" ++ toString n else toString n

def digitVal (c : Char) : Nat := c.toNat - 48

def digitsToNat (cs : List Char) : Nat := cs.foldl (fun a c => a * 10 + digitVal c) 0

/-- Word character of the regex class backslash-w (ASCII range). -/
def isWordChar (c : Char) : Bool := c.isAlphanum || c == '_'

/-! ## Data model -/

/-- One DataFrame cell: none models a pandas NaN / missing value. -/
abbrev Cell := Option String

/-- The canonical EventRecord schema: the eleven columns written by
reformat_data and round-tripped through the CSV files. -/
structure Rec where
  day : Cell
  date : Cell
  time : Cell
  timezone : Cell
  currency : Cell
  impact : Cell
  event : Cell
  detail : Cell
  actual : Cell
  forecast : Cell
  previous : Cell
deriving DecidableEq

/-- Python str() of a cell value: a string is itself, NaN renders as "nan".
This is what an f-string interpolation of row.get(col) produces. -/
def cellStr : Cell → String
  | none => "nan"
  | some s => s

/-- Comparison form used by merge_csv_data: str(x).strip() if pd.notna(x)
else the empty string. -/
def stripCell : Cell → String
  | none => ""
  | some s => pyStrip s

/-! ## Identity resolver: extract_event_id_from_detail and create_key -/

/-- Match pat as a literal prefix of cs, returning the remainder. -/
def stripPre : List Char → List Char → Option (List Char)
  | [], cs => some cs
  | _ :: _, [] => none
  | p :: ps, c :: cs => if c == p then stripPre ps cs else none

/-- Leftmost match of the pattern hash-detail-equals followed by one or more
digits, returning the maximal digit run (re.search semantics). -/
def findDetailDigits : List Char → Option (List Char)
  | [] => none
  | c :: rest =>
    match stripPre ("#detail=".toList) (c :: rest) with
    | some after =>
      let ds := after.takeWhile Char.isDigit
      if ds.isEmpty then findDetailDigits rest else some ds
    | none => findDetailDigits rest

/-- Embeds extract_event_id_from_detail (utils.py lines 33-46): NaN and empty
inputs give none; otherwise the first digits following the detail fragment
marker. -/
def extract_event_id_from_detail (detail_url : Cell) : Option String :=
  match detail_url with
  | none => none
  | some s => if s = "" then none else (findDetailDigits s.toList).map (fun ds => String.mk ds)

/-- Embeds create_key (utils.py lines 68-73): event-id key when the detail
URL carries one, otherwise the composite of date, time, currency, event as
an f-string (so NaN cells render as "nan"). -/
def create_key (r : Rec) : String :=
  match extract_event_id_from_detail r.detail with
  | some id => "event_" ++ id
  | none =>
    cellStr r.date ++ "_" ++ cellStr r.time ++ "_" ++ cellStr r.currency ++ "_" ++ cellStr r.event

/-! ## Date parsing for the canonical sort -/

def isLeapYear (y : Nat) : Bool := y % 4 == 0 && (y % 100 != 0 || y % 400 == 0)

def daysInMonth (y m : Nat) : Nat :=
  if m == 2 then (if isLeapYear y then 29 else 28)
  else if m == 4 || m == 6 || m == 9 || m == 11 then 30
  else 31

/-- Parse a one-or-two-digit numeric field per the CPython strptime regexes:
a one-digit value must be at least lo (at least 1 for day, month, hour
fields, 0 for minutes), a two-digit value must lie in lo..hi, and a longer
digit run fails the whole field. Returns the value and the remainder. -/
def parseNumField (lo hi : Nat) (cs : List Char) : Option (Nat × List Char) :=
  let ds := cs.takeWhile Char.isDigit
  let rest := cs.dropWhile Char.isDigit
  if ds.length == 1 then
    let v := digitsToNat ds
    if lo ≤ v then some (v, rest) else none
  else if ds.length == 2 then
    let v := digitsToNat ds
    if lo ≤ v ∧ v ≤ hi then some (v, rest) else none
  else none

/-- Parse exactly four digits (the strptime Y field). -/
def parseYear4 (cs : List Char) : Option (Nat × List Char) :=
  let ds := cs.takeWhile Char.isDigit
  if ds.length == 4 then some (digitsToNat ds, cs.dropWhile Char.isDigit) else none

def expectChar (c : Char) : List Char → Option (List Char)
  | [] => none
  | x :: xs => if x == c then some xs else none

/-- Strict dd/mm/yyyy parse as pd.to_datetime(format "%d/%m/%Y") performs it,
including calendar validation; none models NaT under errors="coerce". -/
def parseDateDMY (s : String) : Option (Nat × Nat × Nat) := do
  let (d, r1) ← parseNumField 1 31 s.toList
  let r2 ← expectChar '/' r1
  let (m, r3) ← parseNumField 1 12 r2
  let r4 ← expectChar '/' r3
  let (y, r5) ← parseYear4 r4
  if r5.isEmpty ∧ 1 ≤ y ∧ d ≤ daysInMonth y m then pure (y, m, d) else none

/-- Sort key of the helper column _sort_date: the parsed date packed into a
Nat; none models NaT (an unparseable or missing date). -/
def dateSortKey (r : Rec) : Option Nat :=
  match r.date with
  | none => none
  | some s => (parseDateDMY s).map (fun t => t.1 * 10000 + t.2.1 * 100 + t.2.2)

/-! ## Row comparison and the stable sort -/

def cmpNat (a b : Nat) : Ordering :=
  if a < b then Ordering.lt else if b < a then Ordering.gt else Ordering.eq

/-- Code-point lexicographic comparison, as Python compares str values. -/
def cmpChars : List Char → List Char → Ordering
  | [], [] => Ordering.eq
  | [], _ :: _ => Ordering.lt
  | _ :: _, [] => Ordering.gt
  | a :: restA, b :: restB =>
    match cmpNat a.toNat b.toNat with
    | Ordering.eq => cmpChars restA restB
    | o => o

def cmpStr (s t : String) : Ordering := cmpChars s.toList t.toList

/-- Option comparison with none (NaN / NaT) ordered last, matching the
default na_position of DataFrame.sort_values. -/
def cmpOpt {α : Type} (c : α → α → Ordering) : Option α → Option α → Ordering
  | none, none => Ordering.eq
  | none, some _ => Ordering.gt
  | some _, none => Ordering.lt
  | some a, some b => c a b

def cmpOptNat : Option Nat → Option Nat → Ordering := cmpOpt cmpNat

def cmpOptStr : Option String → Option String → Ordering := cmpOpt cmpStr

/-- Lexicographic sort key of sort_values(by [_sort_date, time]): parsed date
first (NaT last), then the raw time string (NaN last). -/
def rowCmp (a b : Rec) : Ordering :=
  (cmpOptNat (dateSortKey a) (dateSortKey b)).then (cmpOptStr a.time b.time)

def leRow (a b : Rec) : Prop := ¬ rowCmp a b = Ordering.gt

instance leRowDecidable : DecidableRel leRow := fun a b =>
  inferInstanceAs (Decidable ¬ rowCmp a b = Ordering.gt)

/-- The canonical sort of merge_csv_data (utils.py lines 128-132): a stable
sort by parsed date then time string. Stable sorts agreeing on a total
preorder coincide, so a stable insertion sort models the pandas lexsort. -/
def sortRows (rows : List Rec) : List Rec := List.insertionSort leRow rows

/-! ## Merge engine: merge_csv_data -/

/-- Embeds the change detection of utils.py lines 100-110: compare the time,
actual, forecast and previous fields, string-trimmed, NaN treated as the
empty string. -/
def rowChanged (existing_row new_row : Rec) : Bool :=
  stripCell new_row.time != stripCell existing_row.time ||
  stripCell new_row.actual != stripCell existing_row.actual ||
  stripCell new_row.forecast != stripCell existing_row.forecast ||
  stripCell new_row.previous != stripCell existing_row.previous

def keyedIn (rows : List Rec) (k : String) : Bool := rows.any (fun r => create_key r == k)

/-- One slot of the update pass (utils.py lines 96-117): the row at the first
existing index of a matched key is replaced wholesale by the first incoming
row with that key when rowChanged holds; every other existing row is left
untouched. earlier holds the original existing rows before this one. -/
def updateRow (new_rows earlier : List Rec) (e : Rec) : Rec × Bool :=
  let k := create_key e
  if keyedIn earlier k then (e, false)
  else
    match new_rows.find? (fun n => create_key n == k) with
    | none => (e, false)
    | some n => if rowChanged e n then (n, true) else (e, false)

def applyUpdatesAux (new_rows : List Rec) : List Rec → List Rec → List Rec × Nat
  | _, [] => ([], 0)
  | earlier, e :: rest =>
    let p := updateRow new_rows earlier e
    let q := applyUpdatesAux new_rows (earlier ++ [e]) rest
    (p.1 :: q.1, (if p.2 then 1 else 0) + q.2)

/-- The update pass of merge_csv_data: the working set after all matched keys
are processed, together with updated_count. -/
def applyUpdates (existing new_rows : List Rec) : List Rec × Nat :=
  applyUpdatesAux new_rows [] existing

def addedAux (existing_keys : List String) : List String → List Rec → List Rec
  | _, [] => []
  | seen, n :: rest =>
    let k := create_key n
    if existing_keys.contains k || seen.contains k then addedAux existing_keys seen rest
    else n :: addedAux existing_keys (k :: seen) rest

/-- The addition pass of merge_csv_data (utils.py lines 119-123): for each
distinct incoming key absent from the existing keys, append the first
incoming row carrying it. -/
def addedRecords (existing new_rows : List Rec) : List Rec :=
  addedAux (existing.map create_key) [] new_rows

/-- Embeds merge_csv_data (utils.py lines 49-136). The first component is the
returned record set; the second is the printed merge report
(added_count, updated_count), none on the early returns for a None/empty
side, which print no report. -/
def merge_csv_data (existing new_rows : List Rec) : List Rec × Option (Nat × Nat) :=
  match existing with
  | [] => (new_rows, none)
  | _ :: _ =>
    match new_rows with
    | [] => (existing, none)
    | _ :: _ =>
      let upd := applyUpdates existing new_rows
      let adds := addedRecords existing new_rows
      (sortRows (upd.1 ++ adds), some (adds.length, upd.2))

/-- Specification-side helper for the duplicate-key tie-break claim: keep only
the first incoming record of each merge key. -/
def dedupByKeyAux : List String → List Rec → List Rec
  | _, [] => []
  | seen, n :: rest =>
    let k := create_key n
    if seen.contains k then dedupByKeyAux seen rest
    else n :: dedupByKeyAux (k :: seen) rest

/-- Specification-side: the incoming rows with all later duplicates of a
merge key discarded. -/
def dedupByKey (rows : List Rec) : List Rec := dedupByKeyAux [] rows

/-! ## Row normalizer: extract_date_parts and reformat_data -/

/-- A raw scraped row: an ordered mapping from column label to text. -/
abbrev RawRow := List (String × String)

def rawGet (row : RawRow) (k : String) : Option String :=
  (row.find? (fun p => p.1 == k)).map (fun p => p.2)

def rawGetD (row : RawRow) (k d : String) : String := (rawGet row k).getD d

/-- Python dict assignment: replace the value of an existing key in place,
else append the binding. -/
def dictSet : RawRow → String → String → RawRow
  | [], k, v => [(k, v)]
  | (k0, v0) :: rest, k, v =>
    if k0 == k then (k, v) :: rest else (k0, v0) :: dictSet rest k v

def weekdayAbbrevs : List String := ["Mon", "Tue", "Wed", "Thu", "Fri", "Sat", "Sun"]

def monthAbbrevs : List String := ["Jan", "Feb", "Mar", "Apr", "May", "Jun", "Jul", "Aug", "Sep", "Oct", "Nov", "Dec"]

def matchFirstAbbrev : List String → List Char → Option (String × List Char)
  | [], _ => none
  | a :: rest, cs =>
    match stripPre a.toList cs with
    | some r => some (a, r)
    | none => matchFirstAbbrev rest cs

def monthNumAux : Nat → List String → String → Nat
  | _, [], _ => 0
  | i, a :: rest, m => if a == m then i else monthNumAux (i + 1) rest m

/-- Month abbreviation to month number, as datetime.strptime with the b
directive resolves it. -/
def monthNumber (m : String) : Nat := monthNumAux 1 monthAbbrevs m

structure DateParts where
  day : String
  date : String
deriving DecidableEq

def mkDateParts (wd mon : String) (ds : List Char) (year : String) : DateParts :=
  { day := wd, date := two (digitsToNat ds) ++ "/" ++ two (monthNumber mon) ++ "/" ++ year }

/-- Try the date pattern of extract_date_parts at one position: weekday
abbreviation, whitespace, month abbreviation, whitespace, one or two digits
with a trailing word boundary. -/
def tryDatePatternAt (cs : List Char) (year : String) : Option DateParts := do
  let (wd, r1) ← matchFirstAbbrev weekdayAbbrevs cs
  if (r1.takeWhile isPySpace).isEmpty then none
  else
    let r2 := r1.dropWhile isPySpace
    match matchFirstAbbrev monthAbbrevs r2 with
    | none => none
    | some (mon, r3) =>
      if (r3.takeWhile isPySpace).isEmpty then none
      else
        let r4 := r3.dropWhile isPySpace
        let ds := r4.takeWhile Char.isDigit
        let r5 := r4.dropWhile Char.isDigit
        if ds.length == 0 ∨ ds.length > 2 then none
        else
          match r5 with
          | [] => pure (mkDateParts wd mon ds year)
          | c :: _ => if isWordChar c then none else pure (mkDateParts wd mon ds year)

/-- Scan left to right for the first position where the date pattern matches
(re.search); the Bool argument records whether the previous character was a
non-word character, so the leading word boundary holds. -/
def searchDateFrom (year : String) : Bool → List Char → Option DateParts
  | _, [] => none
  | prevNonWord, c :: rest =>
    match (if prevNonWord then tryDatePatternAt (c :: rest) year else none) with
    | some dp => some dp
    | none => searchDateFrom year (!(isWordChar c)) rest

/-- Embeds extract_date_parts (utils.py lines 150-172). -/
def extract_date_parts (text : String) (year : String) : Option DateParts :=
  searchDateFrom year true text.toList

/-! ## Timezone conversion: convert_time_zone -/

/-- Abstraction of the pytz timezone database: conv composes timezone lookup,
localize and astimezone for a given naive wall-clock instant and yields the
target-zone (hour, minute); none models any raised exception. Real datetimes
always carry an hour below 24 and a minute below 60, recorded as conv_bounds. -/
structure TzDB where
  conv : String → String → Nat → Nat → Nat → Nat → Nat → Option (Nat × Nat)
  conv_bounds : ∀ fz tz y m d h mi p, conv fz tz y m d h mi = some p → p.1 < 24 ∧ p.2 < 60

def parseAmPm (cs : List Char) : Option (Bool × List Char) :=
  match cs with
  | c1 :: c2 :: rest =>
    if pyLowerChar c2 == 'm' then
      if pyLowerChar c1 == 'a' then some (false, rest)
      else if pyLowerChar c1 == 'p' then some (true, rest)
      else none
    else none
  | _ => none

/-- Strict datetime.strptime against the fixed pattern d/m/Y I:Mp (12-hour
clock, case-insensitive am/pm, calendar-validated, nothing left over),
returning (day, month, year, hour24, minute); none models ValueError. -/
def parseDmyTime (s : String) : Option (Nat × Nat × Nat × Nat × Nat) := do
  let (d, r1) ← parseNumField 1 31 s.toList
  let r2 ← expectChar '/' r1
  let (m, r3) ← parseNumField 1 12 r2
  let r4 ← expectChar '/' r3
  let (y, r5) ← parseYear4 r4
  if (r5.takeWhile isPySpace).isEmpty then none
  else do
    let r6 := r5.dropWhile isPySpace
    let (h, r7) ← parseNumField 1 12 r6
    let r8 ← expectChar ':' r7
    let (mi, r9) ← parseNumField 0 59 r8
    let (pm, r10) ← parseAmPm r9
    if r10.isEmpty ∧ 1 ≤ y ∧ d ≤ daysInMonth y m then
      let h24 := if pm then (if h == 12 then 12 else h + 12) else (if h == 12 then 0 else h)
      pure (d, m, y, h24, mi)
    else none

/-- Embeds convert_time_zone (utils.py lines 265-289): empty time or date
passes through, the sentinels all day and tentative pass through in any
letter case, any parse or timezone failure returns the original time, and a
successful conversion is rendered as zero-padded 24-hour HH:MM. -/
def convert_time_zone (db : TzDB) (date_str time_str from_zone_str to_zone_str : String) : String :=
  if time_str = "" ∨ date_str = "" then time_str
  else if pyLower time_str = "all day" ∨ pyLower time_str = "tentative" then time_str
  else
    match parseDmyTime (date_str ++ " " ++ time_str) with
    | none => time_str
    | some (d, m, y, h24, mi) =>
      match db.conv from_zone_str to_zone_str y m d h24 mi with
      | none => time_str
      | some p => two p.1 ++ ":" ++ two p.2

/-! ## Row normalizer main loop -/

/-- Module configuration read by reformat_data; the empty string models a
falsy (unset) timezone. -/
structure ScraperConfig where
  scraper_timezone : String
  target_timezone : String

/-- The final sentinel pass of reformat_data: every value equal to the
literal "empty" becomes the empty string. -/
def applyEmptySentinel (row : RawRow) : RawRow :=
  row.map (fun p => if p.2 = "empty" then (p.1, "") else p)

/-- One pass of the reformat_data loop, threading the running
(current_date, current_time, current_day) accumulator. -/
def reformatAux (db : TzDB) (cfg : ScraperConfig) (year : String) :
    String → String → String → List RawRow → List RawRow
  | _, _, _, [] => []
  | current_date, current_time, current_day, row :: rest =>
    let dateUpd :=
      match rawGet row "date" with
      | some d =>
        if d ≠ "empty" then
          match extract_date_parts d year with
          | some dp => (dp.date, dp.day)
          | none => (current_date, current_day)
        else (current_date, current_day)
      | none => (current_date, current_day)
    let cd := dateUpd.1
    let cday := dateUpd.2
    let ct :=
      match rawGet row "time" with
      | some t => if t ≠ "" ∧ pyStrip t ≠ "" ∧ t ≠ "empty" then pyStrip t else current_time
      | none => current_time
    if row.length == 1 then reformatAux db cfg year cd ct cday rest
    else
      let nr1 := dictSet (dictSet row "day" cday) "date" cd
      let nr2 :=
        if cfg.scraper_timezone ≠ "" ∧ cfg.target_timezone ≠ "" then
          dictSet (dictSet nr1 "time"
            (convert_time_zone db cd ct cfg.scraper_timezone cfg.target_timezone))
            "timezone" cfg.target_timezone
        else
          dictSet (dictSet nr1 "time" ct) "timezone"
            (if cfg.scraper_timezone ≠ "" then cfg.scraper_timezone else "")
      let nr3 := dictSet nr2 "currency" (rawGetD row "currency" "")
      let nr4 := dictSet nr3 "impact" (rawGetD row "impact" "")
      let nr5 := dictSet nr4 "event" (rawGetD row "event" "")
      let nr6 := dictSet nr5 "detail" (rawGetD row "detail" "")
      let nr7 := dictSet nr6 "actual" (rawGetD row "actual" "")
      let nr8 := dictSet nr7 "forecast" (rawGetD row "forecast" "")
      let nr9 := dictSet nr8 "previous" (rawGetD row "previous" "")
      applyEmptySentinel nr9 :: reformatAux db cfg year cd ct cday rest

/-- Embeds reformat_data (utils.py lines 175-225). -/
def reformat_data (db : TzDB) (cfg : ScraperConfig) (data : List RawRow) (year : String) :
    List RawRow :=
  reformatAux db cfg year "" "" "" data

/-- Embeds the data-shaping part of save_csv (utils.py lines 228-243): Python
derives the CSV header as list(structured_rows[0].keys()), which raises
IndexError when the normalizer produced no rows; Except.error models that
crash, and Except.ok carries the header and rows handed to the DataFrame. -/
def save_csv (db : TzDB) (cfg : ScraperConfig) (data : List RawRow) (year : String) :
    Except String (List String × List RawRow) :=
  match reformat_data db cfg data year with
  | [] => Except.error "IndexError: list index out of range"
  | r :: rest => Except.ok (r.map (fun p => p.1), r :: rest)

/-! ## Concrete records used by counterexamples and witnesses -/

/-- A trivial timezone database that never converts (models pytz failing on
unknown zones); used to instantiate theorems at concrete inputs. -/
def tzNone : TzDB :=
  { conv := fun _ _ _ _ _ _ _ => none
    conv_bounds := fun _ _ _ _ _ _ _ _ h => by cases h }

/-- A timezone database that returns the wall clock unchanged when it is in
range (an identity conversion). -/
def tzId : TzDB :=
  { conv := fun _ _ _ _ _ h mi => if h < 24 ∧ mi < 60 then some (h, mi) else none
    conv_bounds := by
      intro fz tz y m d h mi p hp
      dsimp only [] at hp
      by_cases hc : h < 24 ∧ mi < 60
      · rw [if_pos hc] at hp
        injection hp with h2
        subst h2
        exact hc
      · rw [if_neg hc] at hp
        cases hp }

/-- Configuration with no timezones set (conversion disabled). -/
def cfgNoTz : ScraperConfig := { scraper_timezone := "", target_timezone := "" }

def recJun1 : Rec :=
  { day := some "Sun", date := some "01/06/2025", time := some "08:30", timezone := some ""
    currency := some "USD", impact := some "red", event := some "Alpha", detail := none
    actual := some "", forecast := some "", previous := some "" }

def recJun2 : Rec :=
  { day := some "Mon", date := some "02/06/2025", time := some "09:00", timezone := some ""
    currency := some "EUR", impact := some "orange", event := some "Beta", detail := none
    actual := some "", forecast := some "", previous := some "" }

def recJun3 : Rec :=
  { day := some "Tue", date := some "03/06/2025", time := some "10:00", timezone := some ""
    currency := some "GBP", impact := some "yellow", event := some "Gamma", detail := none
    actual := some "", forecast := some "", previous := some "" }

/-- Existing record keyed by a detail event id, with time 8:30am. -/
def rec830 : Rec :=
  { day := some "Sun", date := some "01/06/2025", time := some "8:30am", timezone := some ""
    currency := some "USD", impact := some "red", event := some "CPI"
    detail := some "https://www.forexfactory.com/calendar?month=june.2025#detail=147450"
    actual := some "", forecast := some "", previous := some "" }

/-- Incoming record with the same detail event id but time 9:00am. -/
def rec900 : Rec :=
  { day := some "Sun", date := some "01/06/2025", time := some "9:00am", timezone := some ""
    currency := some "USD", impact := some "red", event := some "CPI"
    detail := some "https://www.forexfactory.com/calendar?month=june.2025#detail=147450"
    actual := some "", forecast := some "", previous := some "" }

/-- A record whose date cell is NaN and which has no detail URL. -/
def recNaNDate : Rec :=
  { day := some "Sun", date := none, time := some "8:30am", timezone := some ""
    currency := some "USD", impact := some "red", event := some "X", detail := none
    actual := some "", forecast := some "", previous := some "" }

/-- A second incoming record carrying the same composite merge key as recJun2
(the date, time, currency and event fields agree) but a different impact. -/
def recJun2dup : Rec := { recJun2 with impact := some "gray" }

/-- A record whose date string does not parse as dd/mm/yyyy. -/
def recBadDate : Rec :=
  { day := some "Sun", date := some "oops", time := some "08:30", timezone := some ""
    currency := some "USD", impact := some "red", event := some "Delta", detail := none
    actual := some "", forecast := some "", previous := some "" }


/-! # Theorems

The development below first establishes order-theoretic facts about the sort
comparator, then the structural lemmas about the merge passes, and finally
one theorem per specification claim. -/

theorem uint32_eq_of_toNat_eq (u v : UInt32) (h : u.toNat = v.toNat) : u = v := by
  cases u with
  | mk ub =>
    cases v with
    | mk vb =>
      have hb : ub = vb := BitVec.eq_of_toNat_eq h
      rw [hb]

theorem char_eq_of_toNat_eq {a b : Char} (h : a.toNat = b.toNat) : a = b :=
  Char.eq_of_val_eq (uint32_eq_of_toNat_eq _ _ h)

theorem string_eq_of_toList_eq {s t : String} (h : s.toList = t.toList) : s = t := by
  cases s
  cases t
  simp only [String.toList] at h
  simp [h]

theorem ordering_swap_eq_iff {o x : Ordering} : o.swap = x ↔ o = x.swap := by
  cases o <;> cases x <;> decide

theorem ordering_then_swap (o p : Ordering) : (o.then p).swap = o.swap.then p.swap := by
  cases o <;> cases p <;> decide

theorem ordering_then_ne_gt {o p : Ordering} :
    ¬ o.then p = Ordering.gt ↔ (o = Ordering.lt ∨ (o = Ordering.eq ∧ ¬ p = Ordering.gt)) := by
  cases o <;> cases p <;> decide

theorem cmpNat_eq_iff {a b : Nat} : cmpNat a b = Ordering.eq ↔ a = b := by
  unfold cmpNat
  by_cases h1 : a < b
  · simp [h1]
    omega
  · by_cases h2 : b < a
    · simp [h1, h2]
      omega
    · simp [h1, h2]
      omega

theorem cmpNat_lt_iff {a b : Nat} : cmpNat a b = Ordering.lt ↔ a < b := by
  unfold cmpNat
  by_cases h1 : a < b
  · simp [h1]
  · by_cases h2 : b < a
    · simp [h1, h2]
    · simp [h1, h2]

theorem cmpNat_swap (a b : Nat) : cmpNat a b = (cmpNat b a).swap := by
  unfold cmpNat
  by_cases h1 : a < b
  · have h2 : ¬ b < a := by omega
    simp [h1, h2, Ordering.swap]
  · by_cases h2 : b < a
    · simp [h1, h2, Ordering.swap]
    · simp [h1, h2, Ordering.swap]

theorem cmpNat_lt_trans {a b c : Nat} (h1 : cmpNat a b = Ordering.lt)
    (h2 : cmpNat b c = Ordering.lt) : cmpNat a c = Ordering.lt := by
  rw [cmpNat_lt_iff] at h1 h2 ⊢
  omega

theorem cmpChars_eq_imp : ∀ {as bs : List Char}, cmpChars as bs = Ordering.eq → as = bs
  | [], [], _ => rfl
  | [], _ :: _, h => by simp [cmpChars] at h
  | _ :: _, [], h => by simp [cmpChars] at h
  | a :: as, b :: bs, h => by
    cases hn : cmpNat a.toNat b.toNat with
    | lt => simp [cmpChars, hn] at h
    | gt => simp [cmpChars, hn] at h
    | eq =>
      have hab : a = b := char_eq_of_toNat_eq (cmpNat_eq_iff.mp hn)
      simp only [cmpChars, hn] at h
      rw [hab, cmpChars_eq_imp h]

theorem cmpChars_swap : ∀ as bs : List Char, cmpChars as bs = (cmpChars bs as).swap
  | [], [] => rfl
  | [], _ :: _ => rfl
  | _ :: _, [] => rfl
  | a :: as, b :: bs => by
    cases hn : cmpNat a.toNat b.toNat with
    | lt =>
      have hs := cmpNat_swap b.toNat a.toNat
      rw [hn] at hs
      simp only [Ordering.swap] at hs
      simp [cmpChars, hn, hs, Ordering.swap]
    | gt =>
      have hs := cmpNat_swap b.toNat a.toNat
      rw [hn] at hs
      simp only [Ordering.swap] at hs
      simp [cmpChars, hn, hs, Ordering.swap]
    | eq =>
      have hs := cmpNat_swap b.toNat a.toNat
      rw [hn] at hs
      simp only [Ordering.swap] at hs
      simp only [cmpChars, hn, hs]
      exact cmpChars_swap as bs

theorem cmpChars_lt_trans :
    ∀ as bs cs : List Char, cmpChars as bs = Ordering.lt → cmpChars bs cs = Ordering.lt →
      cmpChars as cs = Ordering.lt
  | [], bs, [] => by
    intro _ h2
    cases bs with
    | nil => simp [cmpChars] at h2
    | cons b bs => simp [cmpChars] at h2
  | [], _, _ :: _ => by
    intro _ _
    simp [cmpChars]
  | a :: as, bs, cs => by
    intro h1 h2
    cases bs with
    | nil => simp [cmpChars] at h1
    | cons b bs =>
      cases cs with
      | nil => simp [cmpChars] at h2
      | cons c cs =>
        cases h1n : cmpNat a.toNat b.toNat with
        | gt => simp [cmpChars, h1n] at h1
        | lt =>
          cases h2n : cmpNat b.toNat c.toNat with
          | gt => simp [cmpChars, h2n] at h2
          | lt =>
            have h3 : cmpNat a.toNat c.toNat = Ordering.lt := cmpNat_lt_trans h1n h2n
            simp [cmpChars, h3]
          | eq =>
            have hbc : b.toNat = c.toNat := cmpNat_eq_iff.mp h2n
            have h3 : cmpNat a.toNat c.toNat = Ordering.lt := by
              rw [← hbc]
              exact h1n
            simp [cmpChars, h3]
        | eq =>
          have hab : a.toNat = b.toNat := cmpNat_eq_iff.mp h1n
          simp only [cmpChars, h1n] at h1
          cases h2n : cmpNat b.toNat c.toNat with
          | gt => simp [cmpChars, h2n] at h2
          | lt =>
            have h3 : cmpNat a.toNat c.toNat = Ordering.lt := by
              rw [hab]
              exact h2n
            simp [cmpChars, h3]
          | eq =>
            simp only [cmpChars, h2n] at h2
            have h3 : cmpNat a.toNat c.toNat = Ordering.eq := by
              rw [hab]
              exact h2n
            simp only [cmpChars, h3]
            exact cmpChars_lt_trans as bs cs h1 h2

theorem cmpStr_eq_imp {s t : String} (h : cmpStr s t = Ordering.eq) : s = t :=
  string_eq_of_toList_eq (cmpChars_eq_imp h)

theorem cmpStr_swap (s t : String) : cmpStr s t = (cmpStr t s).swap :=
  cmpChars_swap _ _

theorem cmpStr_lt_trans {s t u : String} (h1 : cmpStr s t = Ordering.lt)
    (h2 : cmpStr t u = Ordering.lt) : cmpStr s u = Ordering.lt :=
  cmpChars_lt_trans _ _ _ h1 h2

theorem cmpOpt_eq_imp {α : Type} {c : α → α → Ordering}
    (hc : ∀ x y, c x y = Ordering.eq → x = y) :
    ∀ {o1 o2 : Option α}, cmpOpt c o1 o2 = Ordering.eq → o1 = o2
  | none, none, _ => rfl
  | none, some _, h => by simp [cmpOpt] at h
  | some _, none, h => by simp [cmpOpt] at h
  | some x, some y, h => by
    have h2 : c x y = Ordering.eq := h
    rw [hc x y h2]

theorem cmpOpt_swap {α : Type} {c : α → α → Ordering}
    (hc : ∀ x y, c x y = (c y x).swap) :
    ∀ o1 o2 : Option α, cmpOpt c o1 o2 = (cmpOpt c o2 o1).swap
  | none, none => rfl
  | none, some _ => rfl
  | some _, none => rfl
  | some x, some y => hc x y

theorem cmpOpt_lt_trans {α : Type} {c : α → α → Ordering}
    (hlt : ∀ x y z, c x y = Ordering.lt → c y z = Ordering.lt → c x z = Ordering.lt) :
    ∀ o1 o2 o3 : Option α, cmpOpt c o1 o2 = Ordering.lt → cmpOpt c o2 o3 = Ordering.lt →
      cmpOpt c o1 o3 = Ordering.lt
  | some x, some y, some z, h1, h2 => hlt x y z h1 h2
  | some _, some _, none, _, _ => rfl
  | some _, none, o3, _, h2 => by cases o3 <;> simp [cmpOpt] at h2
  | none, o2, _, h1, _ => by cases o2 <;> simp [cmpOpt] at h1

theorem cmpOpt_le_trans {α : Type} {c : α → α → Ordering}
    (heq : ∀ x y, c x y = Ordering.eq → x = y)
    (hlt : ∀ x y z, c x y = Ordering.lt → c y z = Ordering.lt → c x z = Ordering.lt) :
    ∀ o1 o2 o3 : Option α, ¬ cmpOpt c o1 o2 = Ordering.gt → ¬ cmpOpt c o2 o3 = Ordering.gt →
      ¬ cmpOpt c o1 o3 = Ordering.gt := by
  intro o1 o2 o3 h12 h23
  cases h1 : cmpOpt c o1 o2 with
  | gt => exact absurd h1 h12
  | lt =>
    cases h2 : cmpOpt c o2 o3 with
    | gt => exact absurd h2 h23
    | lt => simp [cmpOpt_lt_trans hlt o1 o2 o3 h1 h2]
    | eq =>
      have he : o2 = o3 := cmpOpt_eq_imp heq h2
      rw [← he]
      simp [h1]
  | eq =>
    have he : o1 = o2 := cmpOpt_eq_imp heq h1
    rw [he]
    exact h23

theorem cmpNat_eq_imp_fn : ∀ x y : Nat, cmpNat x y = Ordering.eq → x = y :=
  fun _ _ h => cmpNat_eq_iff.mp h

theorem cmpNat_lt_trans_fn :
    ∀ x y z : Nat, cmpNat x y = Ordering.lt → cmpNat y z = Ordering.lt →
      cmpNat x z = Ordering.lt :=
  fun _ _ _ h1 h2 => cmpNat_lt_trans h1 h2

theorem cmpStr_eq_imp_fn : ∀ x y : String, cmpStr x y = Ordering.eq → x = y :=
  fun _ _ h => cmpStr_eq_imp h

theorem cmpStr_lt_trans_fn :
    ∀ x y z : String, cmpStr x y = Ordering.lt → cmpStr y z = Ordering.lt →
      cmpStr x z = Ordering.lt :=
  fun _ _ _ h1 h2 => cmpStr_lt_trans h1 h2

theorem rowCmp_swap (a b : Rec) : rowCmp a b = (rowCmp b a).swap := by
  unfold rowCmp
  have h1 : cmpOptNat (dateSortKey a) (dateSortKey b) =
      (cmpOptNat (dateSortKey b) (dateSortKey a)).swap :=
    cmpOpt_swap cmpNat_swap _ _
  have h2 : cmpOptStr a.time b.time = (cmpOptStr b.time a.time).swap :=
    cmpOpt_swap cmpStr_swap _ _
  rw [h1, h2, ← ordering_then_swap]

theorem leRow_total : ∀ a b : Rec, leRow a b ∨ leRow b a := by
  intro a b
  unfold leRow
  cases h : rowCmp a b with
  | gt =>
    right
    rw [rowCmp_swap b a, h]
    decide
  | lt =>
    left
    simp [h]
  | eq =>
    left
    simp [h]

theorem leRow_trans : ∀ a b c : Rec, leRow a b → leRow b c → leRow a c := by
  intro a b c hab hbc
  unfold leRow rowCmp at hab hbc ⊢
  rw [ordering_then_ne_gt] at hab hbc ⊢
  rcases hab with hab1 | ⟨hab1, hab2⟩
  · rcases hbc with hbc1 | ⟨hbc1, hbc2⟩
    · exact Or.inl (cmpOpt_lt_trans cmpNat_lt_trans_fn _ _ _ hab1 hbc1)
    · have hkey : dateSortKey b = dateSortKey c := cmpOpt_eq_imp cmpNat_eq_imp_fn hbc1
      left
      rw [← hkey]
      exact hab1
  · have hkey : dateSortKey a = dateSortKey b := cmpOpt_eq_imp cmpNat_eq_imp_fn hab1
    rcases hbc with hbc1 | ⟨hbc1, hbc2⟩
    · left
      rw [hkey]
      exact hbc1
    · right
      refine ⟨by rw [hkey]; exact hbc1, ?_⟩
      exact cmpOpt_le_trans cmpStr_eq_imp_fn cmpStr_lt_trans_fn _ _ _ hab2 hbc2

instance : IsTotal Rec leRow := ⟨leRow_total⟩

instance : IsTrans Rec leRow := ⟨leRow_trans⟩

theorem sortRows_perm (l : List Rec) : (sortRows l).Perm l :=
  List.perm_insertionSort leRow l

theorem sortRows_sorted (l : List Rec) : List.Pairwise leRow (sortRows l) :=
  List.sorted_insertionSort leRow l

theorem sortRows_of_sorted {l : List Rec} (h : List.Pairwise leRow l) : sortRows l = l :=
  List.Sorted.insertionSort_eq h

/-! ## Structural lemmas about the merge passes -/

theorem rowChanged_self (e : Rec) : rowChanged e e = false := by
  simp [rowChanged]

theorem applyUpdatesAux_append (ns : List Rec) :
    ∀ (pre xs ys : List Rec),
      applyUpdatesAux ns pre (xs ++ ys) =
        ((applyUpdatesAux ns pre xs).1 ++ (applyUpdatesAux ns (pre ++ xs) ys).1,
          (applyUpdatesAux ns pre xs).2 + (applyUpdatesAux ns (pre ++ xs) ys).2) := by
  intro pre xs
  induction xs generalizing pre with
  | nil =>
    intro ys
    simp [applyUpdatesAux]
  | cons e rest ih =>
    intro ys
    simp only [List.cons_append, applyUpdatesAux, List.append_eq]
    rw [ih (pre ++ [e]) ys, List.append_assoc, List.singleton_append, Nat.add_assoc]

theorem keyedIn_eq_false_iff {rows : List Rec} {k : String} :
    keyedIn rows k = false ↔ ∀ p ∈ rows, ¬ create_key p = k := by
  unfold keyedIn
  rw [List.any_eq_false]
  constructor
  · intro h p hp
    have := h p hp
    simpa using this
  · intro h p hp
    simpa using h p hp

theorem find?_key_cons_self (e : Rec) (rest : List Rec) :
    (e :: rest).find? (fun n => create_key n == create_key e) = some e := by
  simp [List.find?]

theorem applyUpdatesAux_self (D : List Rec) :
    ∀ pre xs, pre ++ xs = D → applyUpdatesAux D pre xs = (xs, 0) := by
  intro pre xs
  induction xs generalizing pre with
  | nil =>
    intro _
    rfl
  | cons e rest ih =>
    intro hsplit
    have hstep : updateRow D pre e = (e, false) := by
      unfold updateRow
      cases hk : keyedIn pre (create_key e) with
      | true => simp [hk]
      | false =>
        have hfind : D.find? (fun n => create_key n == create_key e) = some e := by
          rw [← hsplit, List.find?_append]
          have hpre : pre.find? (fun n => create_key n == create_key e) = none := by
            rw [List.find?_eq_none]
            intro p hp
            simp only [beq_iff_eq]
            exact (keyedIn_eq_false_iff.mp hk) p hp
          rw [hpre, find?_key_cons_self]
          rfl
        simp [hk, hfind, rowChanged_self]
    have hrest : applyUpdatesAux D (pre ++ [e]) rest = (rest, 0) := by
      apply ih
      rw [← hsplit, List.append_assoc, List.singleton_append]
    simp [applyUpdatesAux, hstep, hrest]

theorem mem_map_contains {D : List Rec} {n : Rec} (h : n ∈ D) :
    (D.map create_key).contains (create_key n) = true := by
  have hmem : create_key n ∈ D.map create_key := List.mem_map_of_mem create_key h
  exact List.elem_eq_true_of_mem hmem

theorem addedAux_nil_of_mem (ek : List String) :
    ∀ seen xs, (∀ n ∈ xs, ek.contains (create_key n) = true) → addedAux ek seen xs = [] := by
  intro seen xs
  induction xs generalizing seen with
  | nil =>
    intro _
    rfl
  | cons n rest ih =>
    intro h
    have hn : ek.contains (create_key n) = true := h n (List.mem_cons_self n rest)
    simp only [addedAux, hn, Bool.true_or, if_true]
    exact ih seen (fun m hm => h m (List.mem_cons_of_mem n hm))

theorem addedRecords_self (D : List Rec) : addedRecords D D = [] := by
  unfold addedRecords
  exact addedAux_nil_of_mem _ [] D (fun n hn => mem_map_contains hn)

theorem applyUpdates_self (D : List Rec) : applyUpdates D D = (D, 0) :=
  applyUpdatesAux_self D [] D rfl

theorem applyUpdatesAux_mem_unmatched (ns : List Rec) (r : Rec)
    (hr : ns.find? (fun m => create_key m == create_key r) = none) :
    ∀ pre xs, r ∈ xs → r ∈ (applyUpdatesAux ns pre xs).1 := by
  intro pre xs
  induction xs generalizing pre with
  | nil =>
    intro h
    cases h
  | cons e rest ih =>
    intro h
    simp only [applyUpdatesAux]
    rcases List.mem_cons.mp h with he | hrest
    · subst he
      have hstep : updateRow ns pre r = (r, false) := by
        unfold updateRow
        cases hk : keyedIn pre (create_key r) with
        | true => simp [hk]
        | false => simp [hk, hr]
      rw [hstep]
      exact List.mem_cons_self _ _
    · exact List.mem_cons_of_mem _ (ih (pre ++ [e]) hrest)

theorem find?_dedupByKeyAux (k : String) :
    ∀ (ns : List Rec) (seen : List String), seen.contains k = false →
      (dedupByKeyAux seen ns).find? (fun m => create_key m == k) =
        ns.find? (fun m => create_key m == k) := by
  intro ns
  induction ns with
  | nil =>
    intro seen _
    rfl
  | cons m rest ih =>
    intro seen hseen
    by_cases hpred : create_key m = k
    · have hsk : seen.contains (create_key m) = false := by
        rw [hpred]
        exact hseen
      simp only [dedupByKeyAux, hsk, Bool.false_eq_true, if_false, List.find?]
      have : (create_key m == k) = true := beq_iff_eq.mpr hpred
      simp [this]
    · have hbeq : (create_key m == k) = false := by
        simp [hpred]
      cases hsk : seen.contains (create_key m) with
      | true =>
        simp only [dedupByKeyAux, hsk, if_true, List.find?, hbeq]
        exact ih seen hseen
      | false =>
        simp only [dedupByKeyAux, hsk, Bool.false_eq_true, if_false, List.find?, hbeq]
        apply ih
        simp only [List.contains_cons, Bool.or_eq_false_iff]
        refine ⟨?_, hseen⟩
        simp only [beq_eq_false_iff_ne]
        intro hkk
        exact hpred hkk.symm

theorem contains_true_iff {l : List String} {k : String} : l.contains k = true ↔ k ∈ l :=
  List.elem_iff

theorem contains_false_iff {l : List String} {k : String} : l.contains k = false ↔ ¬ k ∈ l := by
  rw [Bool.eq_false_iff]
  constructor
  · intro h hmem
    exact h (contains_true_iff.mpr hmem)
  · intro h hc
    exact h (contains_true_iff.mp hc)

theorem updateRow_dedup (ns pre : List Rec) (e : Rec) :
    updateRow (dedupByKey ns) pre e = updateRow ns pre e := by
  simp only [updateRow]
  rw [show dedupByKey ns = dedupByKeyAux [] ns from rfl,
    find?_dedupByKeyAux (create_key e) ns [] rfl]

theorem applyUpdatesAux_dedup (ns : List Rec) :
    ∀ xs pre, applyUpdatesAux (dedupByKey ns) pre xs = applyUpdatesAux ns pre xs := by
  intro xs
  induction xs with
  | nil =>
    intro pre
    rfl
  | cons e rest ih =>
    intro pre
    simp only [applyUpdatesAux, updateRow_dedup, ih]

theorem addedAux_dedup (ek : List String) :
    ∀ (ns : List Rec) (seenA seenD : List String),
      (∀ k, k ∈ seenD → (k ∈ ek ∨ k ∈ seenA)) →
      addedAux ek seenA (dedupByKeyAux seenD ns) = addedAux ek seenA ns := by
  intro ns
  induction ns with
  | nil =>
    intro seenA seenD _
    rfl
  | cons n rest ih =>
    intro seenA seenD hinv
    cases hd : seenD.contains (create_key n) with
    | true =>
      have hmem : create_key n ∈ seenD := contains_true_iff.mp hd
      have hskip : (ek.contains (create_key n) || seenA.contains (create_key n)) = true := by
        rcases hinv _ hmem with h | h
        · rw [contains_true_iff.mpr h]
          simp
        · rw [contains_true_iff.mpr h]
          simp
      simp only [dedupByKeyAux, hd, if_true]
      rw [ih seenA seenD hinv]
      have hrhs : addedAux ek seenA (n :: rest) = addedAux ek seenA rest := by
        simp only [addedAux, hskip, if_true]
      rw [hrhs]
    | false =>
      simp only [dedupByKeyAux, hd, Bool.false_eq_true, if_false]
      cases hskip : (ek.contains (create_key n) || seenA.contains (create_key n)) with
      | true =>
        have hl : addedAux ek seenA (n :: dedupByKeyAux (create_key n :: seenD) rest) =
            addedAux ek seenA (dedupByKeyAux (create_key n :: seenD) rest) := by
          simp only [addedAux, hskip, if_true]
        have hr : addedAux ek seenA (n :: rest) = addedAux ek seenA rest := by
          simp only [addedAux, hskip, if_true]
        rw [hl, hr]
        apply ih
        intro k2 hk2
        rcases List.mem_cons.mp hk2 with h | h
        · subst h
          rcases Bool.or_eq_true_iff.mp hskip with h1 | h1
          · exact Or.inl (contains_true_iff.mp h1)
          · exact Or.inr (contains_true_iff.mp h1)
        · exact hinv k2 h
      | false =>
        have hl : addedAux ek seenA (n :: dedupByKeyAux (create_key n :: seenD) rest) =
            n :: addedAux ek (create_key n :: seenA)
              (dedupByKeyAux (create_key n :: seenD) rest) := by
          simp only [addedAux, hskip, Bool.false_eq_true, if_false]
        have hr : addedAux ek seenA (n :: rest) =
            n :: addedAux ek (create_key n :: seenA) rest := by
          simp only [addedAux, hskip, Bool.false_eq_true, if_false]
        rw [hl, hr]
        congr 1
        apply ih
        intro k2 hk2
        rcases List.mem_cons.mp hk2 with h | h
        · subst h
          exact Or.inr (List.mem_cons_self _ _)
        · rcases hinv k2 h with h1 | h1
          · exact Or.inl h1
          · exact Or.inr (List.mem_cons_of_mem _ h1)

theorem addedRecords_dedup (xs ns : List Rec) :
    addedRecords xs (dedupByKey ns) = addedRecords xs ns := by
  unfold addedRecords dedupByKey
  exact addedAux_dedup _ ns [] [] (fun k hk => by cases hk)

theorem addedAux_eq_filter (ek : List String) :
    ∀ (ns : List Rec) (seenA seenD : List String),
      (∀ k, k ∈ seenA → k ∈ seenD) →
      (∀ k, k ∈ seenD → (k ∈ ek ∨ k ∈ seenA)) →
      addedAux ek seenA ns =
        (dedupByKeyAux seenD ns).filter (fun n => !(ek.contains (create_key n))) := by
  intro ns
  induction ns with
  | nil =>
    intro _ _ _ _
    rfl
  | cons n rest ih =>
    intro seenA seenD ha hb
    cases hd : seenD.contains (create_key n) with
    | true =>
      have hmem : create_key n ∈ seenD := contains_true_iff.mp hd
      have hskip : (ek.contains (create_key n) || seenA.contains (create_key n)) = true := by
        rcases hb _ hmem with h | h
        · rw [contains_true_iff.mpr h]
          simp
        · rw [contains_true_iff.mpr h]
          simp
      have hl : addedAux ek seenA (n :: rest) = addedAux ek seenA rest := by
        simp only [addedAux, hskip, if_true]
      rw [hl]
      simp only [dedupByKeyAux, hd, if_true]
      exact ih seenA seenD ha hb
    | false =>
      have hnotD : ¬ create_key n ∈ seenD := contains_false_iff.mp hd
      have hsa : seenA.contains (create_key n) = false := by
        rw [contains_false_iff]
        intro hmem
        exact hnotD (ha _ hmem)
      simp only [dedupByKeyAux, hd, Bool.false_eq_true, if_false]
      cases hek : ek.contains (create_key n) with
      | true =>
        have hl : addedAux ek seenA (n :: rest) = addedAux ek seenA rest := by
          simp only [addedAux, hek, Bool.true_or, if_true]
        have hr : (n :: dedupByKeyAux (create_key n :: seenD) rest).filter
            (fun m => !(ek.contains (create_key m))) =
            (dedupByKeyAux (create_key n :: seenD) rest).filter
              (fun m => !(ek.contains (create_key m))) := by
          simp [List.filter, contains_true_iff.mp hek]
        rw [hl, hr]
        apply ih
        · intro k2 hk2
          exact List.mem_cons_of_mem _ (ha k2 hk2)
        · intro k2 hk2
          rcases List.mem_cons.mp hk2 with h | h
          · subst h
            exact Or.inl (contains_true_iff.mp hek)
          · exact hb k2 h
      | false =>
        have hl : addedAux ek seenA (n :: rest) =
            n :: addedAux ek (create_key n :: seenA) rest := by
          simp only [addedAux, hek, hsa, Bool.or_self, Bool.false_eq_true, if_false]
        have hr : (n :: dedupByKeyAux (create_key n :: seenD) rest).filter
            (fun m => !(ek.contains (create_key m))) =
            n :: (dedupByKeyAux (create_key n :: seenD) rest).filter
              (fun m => !(ek.contains (create_key m))) := by
          have hnotEk : ¬ create_key n ∈ ek := contains_false_iff.mp hek
          simp [List.filter, hnotEk]
        rw [hl, hr]
        congr 1
        apply ih
        · intro k2 hk2
          rcases List.mem_cons.mp hk2 with h | h
          · subst h
            exact List.mem_cons_self _ _
          · exact List.mem_cons_of_mem _ (ha k2 h)
        · intro k2 hk2
          rcases List.mem_cons.mp hk2 with h | h
          · subst h
            exact Or.inr (List.mem_cons_self _ _)
          · rcases hb k2 h with h1 | h1
            · exact Or.inl h1
            · exact Or.inr (List.mem_cons_of_mem _ h1)

theorem addedRecords_eq_filter (xs ns : List Rec) :
    addedRecords xs ns =
      (dedupByKey ns).filter (fun n => !((xs.map create_key).contains (create_key n))) := by
  unfold addedRecords dedupByKey
  exact addedAux_eq_filter _ ns [] [] (fun k hk => by cases hk) (fun k hk => by cases hk)

/-! ## Lemmas about the normalizer and the identity resolver -/

theorem reformatAux_length (db : TzDB) (cfg : ScraperConfig) (year : String) :
    ∀ (data : List RawRow) (cd ct cday : String),
      (reformatAux db cfg year cd ct cday data).length =
        (data.filter (fun row => row.length != 1)).length := by
  intro data
  induction data with
  | nil =>
    intro cd ct cday
    rfl
  | cons row rest ih =>
    intro cd ct cday
    cases hlen : row.length == 1 with
    | true =>
      have hb : (row.length != 1) = false := by
        simp [bne, hlen]
      have hfilter : (row :: rest).filter (fun r => r.length != 1) =
          rest.filter (fun r => r.length != 1) := by
        simp [List.filter, hb]
      simp only [reformatAux, hlen, if_true]
      rw [hfilter]
      exact ih _ _ _
    | false =>
      have hb : (row.length != 1) = true := by
        simp [bne, hlen]
      have hfilter : (row :: rest).filter (fun r => r.length != 1) =
          row :: rest.filter (fun r => r.length != 1) := by
        simp [List.filter, hb]
      simp only [reformatAux, hlen, Bool.false_eq_true, if_false]
      rw [hfilter]
      simp only [List.length_cons]
      rw [ih]

theorem stripPre_append_self : ∀ (p cs : List Char), stripPre p (p ++ cs) = some cs := by
  intro p
  induction p with
  | nil =>
    intro cs
    rfl
  | cons c ps ih =>
    intro cs
    simp [stripPre, ih]

theorem stripPre_no_match {p : Char} {ps : List Char} {c : Char} (hne : ¬ c = p)
    (cs : List Char) : stripPre (p :: ps) (c :: cs) = none := by
  have hbeq : (c == p) = false := by
    simp [hne]
  simp [stripPre, hbeq]

theorem takeWhile_digits_append :
    ∀ {ds rest : List Char}, (∀ c ∈ ds, c.isDigit = true) →
      (rest = [] ∨ ∃ c cs, rest = c :: cs ∧ c.isDigit = false) →
      (ds ++ rest).takeWhile Char.isDigit = ds := by
  intro ds
  induction ds with
  | nil =>
    intro rest _ hrest
    rcases hrest with h | ⟨c, cs, hr, hc⟩
    · subst h
      rfl
    · subst hr
      simp [List.takeWhile_cons, hc]
  | cons d ds ih =>
    intro rest hds hrest
    have hd : d.isDigit = true := hds d (List.mem_cons_self _ _)
    have htail := ih (fun c hc => hds c (List.mem_cons_of_mem _ hc)) hrest
    simp [List.takeWhile_cons, hd, htail]

theorem findDetailDigits_clean :
    ∀ (pre ds rest : List Char),
      (∀ c ∈ pre, ¬ c = '#') → ds ≠ [] → (∀ c ∈ ds, c.isDigit = true) →
      (rest = [] ∨ ∃ c cs, rest = c :: cs ∧ c.isDigit = false) →
      findDetailDigits (pre ++ "#detail=".toList ++ ds ++ rest) = some ds := by
  intro pre
  induction pre with
  | nil =>
    intro ds rest _ hne hds hrest
    rw [List.nil_append, List.append_assoc]
    have hstrip : stripPre "#detail=".toList ("#detail=".toList ++ (ds ++ rest)) =
        some (ds ++ rest) := stripPre_append_self _ _
    rw [show "#detail=".toList ++ (ds ++ rest) =
      '#' :: ("detail=".toList ++ (ds ++ rest)) from rfl] at hstrip ⊢
    simp only [findDetailDigits, hstrip]
    rw [takeWhile_digits_append hds hrest]
    have hemp : ds.isEmpty = false := by
      cases ds with
      | nil => exact absurd rfl hne
      | cons d ds => rfl
    simp [hemp]
  | cons c pre ih =>
    intro ds rest hpre hne hds hrest
    have hc : ¬ c = '#' := hpre c (List.mem_cons_self _ _)
    rw [show ((c :: pre) ++ "#detail=".toList ++ ds ++ rest) =
      c :: (pre ++ "#detail=".toList ++ ds ++ rest) from by simp]
    have hstrip : stripPre "#detail=".toList
        (c :: (pre ++ "#detail=".toList ++ ds ++ rest)) = none :=
      stripPre_no_match hc _
    simp only [findDetailDigits, hstrip]
    exact ih ds rest (fun x hx => hpre x (List.mem_cons_of_mem _ hx)) hne hds hrest

theorem extract_event_id_clean (pre ds rest : List Char)
    (hpre : ∀ c ∈ pre, ¬ c = '#') (hne : ds ≠ []) (hds : ∀ c ∈ ds, c.isDigit = true)
    (hrest : rest = [] ∨ ∃ c cs, rest = c :: cs ∧ c.isDigit = false) :
    extract_event_id_from_detail (some (String.mk (pre ++ "#detail=".toList ++ ds ++ rest))) =
      some (String.mk ds) := by
  unfold extract_event_id_from_detail
  have hnonempty : ¬ String.mk (pre ++ "#detail=".toList ++ ds ++ rest) = "" := by
    intro h
    have hlist : pre ++ "#detail=".toList ++ ds ++ rest = [] := by
      have h2 := congrArg String.toList h
      simp only [String.toList] at h2
      exact h2
    rcases List.append_eq_nil.mp hlist with ⟨h1, _⟩
    rcases List.append_eq_nil.mp h1 with ⟨h2, _⟩
    rcases List.append_eq_nil.mp h2 with ⟨_, h3⟩
    exact absurd h3 (by decide)
  show (if String.mk (pre ++ "#detail=".toList ++ ds ++ rest) = "" then none
      else (findDetailDigits (pre ++ "#detail=".toList ++ ds ++ rest)).map
        (fun ds => String.mk ds)) = some (String.mk ds)
  rw [if_neg hnonempty]
  rw [findDetailDigits_clean pre ds rest hpre hne hds hrest]
  rfl

/-! ## Claim theorems -/

/-- C1 (counterexample): merge_csv_data applied to the same dataset on both
sides does not return it order-for-order: the final canonical sort reorders a
dataset that is not already sorted by parsed date and time, so
merge(D, D) = D fails for D = [recJun2, recJun1]. -/
theorem merge_self_reorders :
    (merge_csv_data [recJun2, recJun1] [recJun2, recJun1]).1 = [recJun1, recJun2] ∧
    [recJun1, recJun2] ≠ [recJun2, recJun1] := by decide

/-- C1 (amended): merging a nonempty MonthDataset D with itself detects no
changes and duplicates no record — the result is exactly D re-sorted into the
canonical date/time order with a (0, 0) merge report, a permutation of D, and
equal to D field-for-field and order-for-order whenever D is already in
canonical sorted order. -/
theorem merge_self_canonical {D : List Rec} (h : D ≠ []) :
    merge_csv_data D D = (sortRows D, some (0, 0)) ∧ (sortRows D).Perm D ∧
    (List.Pairwise leRow D → merge_csv_data D D = (D, some (0, 0))) := by
  have hmain : merge_csv_data D D = (sortRows D, some (0, 0)) := by
    cases D with
    | nil => exact absurd rfl h
    | cons d ds =>
      simp only [merge_csv_data]
      rw [applyUpdates_self, addedRecords_self]
      simp
  refine ⟨hmain, sortRows_perm D, fun hs => ?_⟩
  rw [hmain, sortRows_of_sorted hs]

/-- C1 (witness): the amended idempotence theorem instantiated at the
singleton dataset [recJun1]. -/
theorem merge_self_canonical_witness :
    merge_csv_data [recJun1] [recJun1] = (sortRows [recJun1], some (0, 0)) ∧
    (sortRows [recJun1]).Perm [recJun1] ∧
    (List.Pairwise leRow [recJun1] →
      merge_csv_data [recJun1] [recJun1] = ([recJun1], some (0, 0))) :=
  merge_self_canonical (by decide)

/-- C2: the normalizer maps zero raw rows to an empty record sequence without
error, but save_csv then crashes: Python derives the CSV header as
list(structured_rows[0].keys()), which raises IndexError on the empty
sequence, modeled here as Except.error. -/
theorem save_csv_empty_input (db : TzDB) (cfg : ScraperConfig) (year : String) :
    reformat_data db cfg [] year = [] ∧
    save_csv db cfg [] year = Except.error "IndexError: list index out of range" := by
  constructor
  · rfl
  · rfl

/-- C3: for a key present in both sides (e at the first existing position
carrying its key, n the first incoming row with that key), the update pass
replaces the existing record wholesale by n exactly when the trimmed time,
actual, forecast or previous fields differ — at the existing record's
position — counting one update, and otherwise leaves the record untouched
and the count unchanged. -/
theorem merge_update_correctness (ns pre post : List Rec) (e n : Rec)
    (hfirst : ∀ p ∈ pre, ¬ create_key p = create_key e)
    (hn : ns.find? (fun m => create_key m == create_key e) = some n) :
    applyUpdates (pre ++ e :: post) ns =
      ((applyUpdates pre ns).1 ++
        (if rowChanged e n = true then n else e) :: (applyUpdatesAux ns (pre ++ [e]) post).1,
       (applyUpdates pre ns).2 +
        ((if rowChanged e n = true then 1 else 0) +
          (applyUpdatesAux ns (pre ++ [e]) post).2)) := by
  have hkeyed : keyedIn pre (create_key e) = false := keyedIn_eq_false_iff.mpr hfirst
  have hupd : updateRow ns pre e =
      (if rowChanged e n = true then n else e, rowChanged e n) := by
    simp only [updateRow, hkeyed, Bool.false_eq_true, if_false, hn]
    cases hc : rowChanged e n with
    | true => simp [hc]
    | false => simp [hc]
  unfold applyUpdates
  rw [applyUpdatesAux_append ns [] pre (e :: post), List.nil_append]
  have hstep : applyUpdatesAux ns pre (e :: post) =
      ((if rowChanged e n = true then n else e) :: (applyUpdatesAux ns (pre ++ [e]) post).1,
        (if rowChanged e n = true then 1 else 0) +
          (applyUpdatesAux ns (pre ++ [e]) post).2) := by
    simp only [applyUpdatesAux, hupd]
  rw [hstep]

/-- C3 (witness): the update theorem at the spec's example — existing key K
with time 8:30am, incoming key K with time 9:00am — yields the incoming
record at that position with one update counted. -/
theorem merge_update_correctness_witness :
    (∀ p ∈ ([] : List Rec), ¬ create_key p = create_key rec830) ∧
    [rec900].find? (fun m => create_key m == create_key rec830) = some rec900 ∧
    applyUpdates ([] ++ rec830 :: []) [rec900] =
      ((applyUpdates [] [rec900]).1 ++
        (if rowChanged rec830 rec900 = true then rec900 else rec830) ::
          (applyUpdatesAux [rec900] ([] ++ [rec830]) []).1,
       (applyUpdates [] [rec900]).2 +
        ((if rowChanged rec830 rec900 = true then 1 else 0) +
          (applyUpdatesAux [rec900] ([] ++ [rec830]) []).2)) :=
  ⟨fun p hp => absurd hp (List.not_mem_nil p),
   by decide,
   merge_update_correctness [rec900] [] [] rec830 rec900
     (fun p hp => absurd hp (List.not_mem_nil p)) (by decide)⟩

/-- C4 (counterexample): merging an empty existing dataset with a two-record
incoming dataset returns the incoming records unchanged but produces NO merge
report — the early return skips the added/updated counting, so no
added_count == 2 is ever reported. -/
theorem merge_empty_existing_no_report :
    merge_csv_data [] [recJun1, recJun2] = ([recJun1, recJun2], none) ∧
    (none : Option (Nat × Nat)) ≠ some (2, 0) := by
  constructor
  · rfl
  · decide

/-- C4 (amended): the empty-side identities hold exactly — an empty existing
dataset returns the incoming unchanged and an empty incoming returns the
existing unchanged, in both cases without computing counts — and pure
addition with a (2, 0) report holds when a nonempty existing dataset is
merged with incoming records whose two fresh keys are appended. -/
theorem merge_empty_sides :
    (∀ ns : List Rec, merge_csv_data [] ns = (ns, none)) ∧
    (∀ (x : Rec) (xs : List Rec), merge_csv_data (x :: xs) [] = (x :: xs, none)) ∧
    merge_csv_data [recJun1] [recJun1, recJun2, recJun3] =
      ([recJun1, recJun2, recJun3], some (2, 0)) := by
  refine ⟨fun ns => rfl, fun x xs => rfl, ?_⟩
  decide

/-- C5: monotonic retention — every existing record whose merge key does not
occur in the incoming dataset is present, with all its field values
unchanged, in the merge result; the merge never deletes records. -/
theorem merge_retention (xs ns : List Rec) (r : Rec) (hr : r ∈ xs)
    (hkey : ∀ n ∈ ns, ¬ create_key n = create_key r) :
    r ∈ (merge_csv_data xs ns).1 := by
  cases xs with
  | nil => cases hr
  | cons x xs0 =>
    cases ns with
    | nil => simpa [merge_csv_data] using hr
    | cons n ns0 =>
      simp only [merge_csv_data]
      have hfind : (n :: ns0).find? (fun m => create_key m == create_key r) = none := by
        rw [List.find?_eq_none]
        intro m hm
        simp only [beq_iff_eq]
        exact hkey m hm
      have hupd : r ∈ (applyUpdatesAux (n :: ns0) [] (x :: xs0)).1 :=
        applyUpdatesAux_mem_unmatched _ r hfind [] _ hr
      have hmem : r ∈ (applyUpdates (x :: xs0) (n :: ns0)).1 ++
          addedRecords (x :: xs0) (n :: ns0) :=
        List.mem_append_left _ hupd
      exact ((sortRows_perm _).mem_iff).mpr hmem

/-- C5 (witness): retention instantiated at a one-record existing dataset and
a disjoint-keyed incoming dataset. -/
theorem merge_retention_witness :
    recJun1 ∈ [recJun1] ∧ (∀ n ∈ [recJun2], ¬ create_key n = create_key recJun1) ∧
    recJun1 ∈ (merge_csv_data [recJun1] [recJun2]).1 :=
  ⟨List.mem_cons_self _ _, by decide,
   merge_retention [recJun1] [recJun2] recJun1 (List.mem_cons_self _ _) (by decide)⟩

/-- C6 (counterexample): a record with no detail URL and a NaN date cell gets
the composite key with the date component rendered as the string nan (the
Python str() of NaN), not as the empty string the claim prescribes for
missing fields. -/
theorem create_key_nan_composite :
    create_key recNaNDate = "nan_8:30am_USD_X" ∧
    ¬ create_key recNaNDate = "_8:30am_USD_X" := by decide

/-- C6 (amended): a record whose detail value contains the fragment marker
followed by digits (with no earlier hash character and the digit run
maximal) is keyed as event_ followed by those digits; a record without an
extractable event id is keyed by the composite of date, time, currency and
event rendered through Python str(), so string fields appear verbatim and
NaN fields render as nan. -/
theorem create_key_derivation :
    (∀ (r : Rec) (pre ds rest : List Char),
      r.detail = some (String.mk (pre ++ "#detail=".toList ++ ds ++ rest)) →
      (∀ c ∈ pre, ¬ c = '#') → ds ≠ [] → (∀ c ∈ ds, c.isDigit = true) →
      (rest = [] ∨ ∃ c cs, rest = c :: cs ∧ c.isDigit = false) →
      create_key r = "event_" ++ String.mk ds) ∧
    (∀ r : Rec, extract_event_id_from_detail r.detail = none →
      create_key r = cellStr r.date ++ "_" ++ cellStr r.time ++ "_" ++
        cellStr r.currency ++ "_" ++ cellStr r.event) := by
  constructor
  · intro r pre ds rest hdet hpre hne hds hrest
    unfold create_key
    rw [hdet, extract_event_id_clean pre ds rest hpre hne hds hrest]
  · intro r hid
    unfold create_key
    rw [hid]

/-- C6 (witness): the key derivation at the spec's example detail URL
containing the fragment detail=147450 yields the key event_147450. -/
theorem create_key_derivation_witness :
    create_key rec830 = "event_" ++ String.mk ("147450".toList) :=
  create_key_derivation.1 rec830
    ("https://www.forexfactory.com/calendar?month=june.2025".toList)
    ("147450".toList) []
    (by decide) (by decide) (by decide) (by decide) (Or.inl rfl)

/-- C7 (counterexample): a record whose date cannot be parsed sorts to the
END of the merge output (pandas default na_position is last), not to the
front as the claim suggests. -/
theorem merge_unparseable_sorts_last :
    (merge_csv_data [recBadDate] [recJun1]).1 = [recJun1, recBadDate] ∧
    ¬ (merge_csv_data [recBadDate] [recJun1]).1.head? = some recBadDate := by decide

/-- C7 (amended): after a merge with both sides nonempty, the output is
non-decreasing in the order leRow — by the date parsed as dd/mm/yyyy and then
the time field compared as a string, with records whose date fails to parse
ordered after all parseable dates (NaT last); the computation is total, so
an unparseable date never raises. -/
theorem merge_output_sorted (x : Rec) (xs : List Rec) (n : Rec) (ns : List Rec) :
    List.Pairwise leRow (merge_csv_data (x :: xs) (n :: ns)).1 := by
  simp only [merge_csv_data]
  exact sortRows_sorted _

/-- C8 (counterexample): on the spec's own example input the second raw row
has exactly one populated field, so reformat_data drops it and emits one
record, not the two records the claim asserts. -/
theorem reformat_drops_spec_example_row :
    (reformat_data tzNone cfgNoTz
      [[("date", "Sun Jun 1"), ("time", "8:30am"), ("event", "X")], [("event", "Y")]]
      "2025").length = 1 ∧
    ¬ (reformat_data tzNone cfgNoTz
      [[("date", "Sun Jun 1"), ("time", "8:30am"), ("event", "X")], [("event", "Y")]]
      "2025").length = 2 := by decide

/-- C8 (amended): reformat_data emits exactly the raw rows with more than one
populated field (pure one-field separator rows are dropped, including the
spec example's second row), and a second row with two populated fields and no
time field inherits the running time 8:30am and running date 01/06/2025. -/
theorem reformat_inheritance_and_drop :
    (∀ (db : TzDB) (cfg : ScraperConfig) (year : String) (data : List RawRow),
      (reformat_data db cfg data year).length =
        (data.filter (fun row => row.length != 1)).length) ∧
    (reformat_data tzNone cfgNoTz
        [[("date", "Sun Jun 1"), ("time", "8:30am"), ("event", "X")],
         [("event", "Y"), ("currency", "USD")]] "2025").map
      (fun r => (rawGetD r "time" "", rawGetD r "date" "", rawGetD r "day" "")) =
      [("8:30am", "01/06/2025", "Sun"), ("8:30am", "01/06/2025", "Sun")] := by
  constructor
  · intro db cfg year data
    exact reformatAux_length db cfg year data "" "" ""
  · decide

/-- C9: convert_time_zone passes empty time or date strings and the
case-insensitive sentinels all day and tentative through unconverted; on any
other input it either returns the original time unchanged (covering every
parse or timezone failure) or parses date and time against the fixed
dd/mm/yyyy 12-hour pattern, applies the zone conversion, and renders a valid
24-hour zero-padded HH:MM string. -/
theorem convert_time_zone_spec (db : TzDB) (dstr tstr fz tz : String) :
    ((tstr = "" ∨ dstr = "" ∨ pyLower tstr = "all day" ∨ pyLower tstr = "tentative") →
      convert_time_zone db dstr tstr fz tz = tstr) ∧
    (convert_time_zone db dstr tstr fz tz = tstr ∨
      ∃ d m y h24 mi p, parseDmyTime (dstr ++ " " ++ tstr) = some (d, m, y, h24, mi) ∧
        db.conv fz tz y m d h24 mi = some p ∧
        convert_time_zone db dstr tstr fz tz = two p.1 ++ ":" ++ two p.2 ∧
        p.1 < 24 ∧ p.2 < 60) := by
  constructor
  · intro h
    by_cases h0 : tstr = "" ∨ dstr = ""
    · unfold convert_time_zone
      rw [if_pos h0]
    · have h1 : pyLower tstr = "all day" ∨ pyLower tstr = "tentative" := by
        rcases h with h | h | h | h
        · exact absurd (Or.inl h) h0
        · exact absurd (Or.inr h) h0
        · exact Or.inl h
        · exact Or.inr h
      unfold convert_time_zone
      rw [if_neg h0, if_pos h1]
  · by_cases h0 : tstr = "" ∨ dstr = ""
    · left
      unfold convert_time_zone
      rw [if_pos h0]
    · by_cases h1 : pyLower tstr = "all day" ∨ pyLower tstr = "tentative"
      · left
        unfold convert_time_zone
        rw [if_neg h0, if_pos h1]
      · cases hp : parseDmyTime (dstr ++ " " ++ tstr) with
        | none =>
          left
          unfold convert_time_zone
          rw [if_neg h0, if_neg h1, hp]
        | some q =>
          obtain ⟨d, m, y, h24, mi⟩ := q
          cases hc : db.conv fz tz y m d h24 mi with
          | none =>
            left
            unfold convert_time_zone
            rw [if_neg h0, if_neg h1, hp]
            simp [hc]
          | some p =>
            right
            refine ⟨d, m, y, h24, mi, p, rfl, hc, ?_,
              (db.conv_bounds fz tz y m d h24 mi p hc).1,
              (db.conv_bounds fz tz y m d h24 mi p hc).2⟩
            unfold convert_time_zone
            rw [if_neg h0, if_neg h1, hp]
            simp [hc]

/-- C9 (witness): the sentinel All Day passes through unconverted under the
identity timezone database. -/
theorem convert_time_zone_spec_witness :
    pyLower "All Day" = "all day" ∧
    convert_time_zone tzId "01/07/2025" "All Day" "UTC" "UTC" = "All Day" :=
  ⟨by decide,
   (convert_time_zone_spec tzId "01/07/2025" "All Day" "UTC" "UTC").1
     (Or.inr (Or.inr (Or.inl (by decide))))⟩

/-- C10: with a nonempty existing dataset, merge_csv_data is insensitive to
discarding every later incoming duplicate of a merge key — it behaves exactly
as if the incoming dataset were deduplicated to the first record per key —
and the addition pass appends exactly the first incoming record of each
distinct key that is absent from the existing keys, so added_count increments
once per distinct key. -/
theorem merge_duplicate_tiebreak (xs ns : List Rec) (hx : xs ≠ []) :
    merge_csv_data xs ns = merge_csv_data xs (dedupByKey ns) ∧
    addedRecords xs ns =
      (dedupByKey ns).filter (fun n => !((xs.map create_key).contains (create_key n))) := by
  refine ⟨?_, addedRecords_eq_filter xs ns⟩
  cases xs with
  | nil => exact absurd rfl hx
  | cons x xs0 =>
    cases ns with
    | nil => rfl
    | cons n ns0 =>
      have hd : dedupByKey (n :: ns0) = n :: dedupByKeyAux [create_key n] ns0 := rfl
      rw [hd]
      simp only [merge_csv_data]
      have h1 : applyUpdates (x :: xs0) (n :: dedupByKeyAux [create_key n] ns0) =
          applyUpdates (x :: xs0) (n :: ns0) := by
        rw [← hd]
        exact applyUpdatesAux_dedup (n :: ns0) (x :: xs0) []
      have h2 : addedRecords (x :: xs0) (n :: dedupByKeyAux [create_key n] ns0) =
          addedRecords (x :: xs0) (n :: ns0) := by
        rw [← hd]
        exact addedRecords_dedup _ _
      rw [h1, h2]

/-- C10 (witness): the tie-break theorem at a concrete incoming dataset with
two records sharing one merge key. -/
theorem merge_duplicate_tiebreak_witness :
    merge_csv_data [recJun1] [recJun2, recJun2dup] =
      merge_csv_data [recJun1] (dedupByKey [recJun2, recJun2dup]) ∧
    addedRecords [recJun1] [recJun2, recJun2dup] =
      (dedupByKey [recJun2, recJun2dup]).filter
        (fun n => !(([recJun1].map create_key).contains (create_key n))) :=
  merge_duplicate_tiebreak [recJun1] [recJun2, recJun2dup] (by decide)
